import Mathlib

/-!
Verification development for `monitor.py` (neon-monitor).

The program keeps three SQLite ledger tables (`solana_clusters`,
`github_versions`, `programs`), each a set of natural-key rows with a
`notified` flag, and repeats the same observe / insert-or-ignore /
notify-and-mark cycle on each of them.  We embed one generic ledger table
as a Lean list of rows in rowid (insertion) order: the tables are
append-only (no statement in the program deletes rows), so a full-table
scan (`SELECT ... WHERE notified = 0`, no ORDER BY) returns rows in
insertion order, which the list order models.

`schema.sql` is referenced by `init_db` but is not part of the source
tree; where its content matters it is modelled from the spec (natural-key
columns UNIQUE, `notified` boolean defaulting to false).
-/

namespace NeonMonitor

/-- One ledger row: the natural key of the observation plus the
`notified` flag (spec: boolean, default false). -/

structure Row (κ : Type) where
  key : κ
  notified : Bool
deriving DecidableEq, Repr

/-- A ledger table in rowid (insertion) order. -/

abbrev Table (κ : Type) := List (Row κ)

/-- `INSERT OR IGNORE INTO table(keycols) VALUES (?)`.
Modelled from the spec: `schema.sql` is absent from the source tree; the
spec states the natural-key columns are UNIQUE (so the insert is ignored
exactly when a row with the key exists) and that `notified` defaults to
false. -/

def insertOrIgnore {κ : Type} [DecidableEq κ] (t : Table κ) (k : κ) : Table κ :=
  if ∃ r ∈ t, r.key = k then t else t ++ [⟨k, false⟩]

/-- `SELECT keycols FROM table WHERE notified = 0`: the full-table scan of
an append-only table, in rowid (insertion) order. -/

def fetchUnnotified {κ : Type} (t : Table κ) : List κ :=
  (t.filter fun r => !r.notified).map Row.key

/-- `UPDATE table SET notified=1 WHERE keycols = ?`. -/

def markNotified {κ : Type} [DecidableEq κ] (t : Table κ) (k : κ) : Table κ :=
  t.map fun r => if r.key = k then ⟨r.key, true⟩ else r

/-- The body of a `notify_*` function after the `SELECT`: for each fetched
row, try to send the Slack message; when dispatch raises no error
(`d k = true`), run the `UPDATE`; when it raises (`except` branch), log and
continue.  Returns the updated table and the trace of dispatch attempts. -/

def notifyLoop {κ : Type} [DecidableEq κ] (d : κ → Bool) :
    List κ → Table κ → Table κ × List (κ × Bool)
  | [], t => (t, [])
  | k :: ks, t =>
    let t2 := if d k then markNotified t k else t
    let rest := notifyLoop d ks t2
    (rest.1, (k, d k) :: rest.2)

/-- A whole `notify_*` run: fetch the un-notified rows once, then loop over
that snapshot.  `d k = true` models `send_slack_notification` returning
without raising for the row with key `k`; `requests.post` is only observed
through raising or not (its response is discarded by the code). -/

def notifyRun {κ : Type} [DecidableEq κ] (d : κ → Bool) (t : Table κ) :
    Table κ × List (κ × Bool) :=
  notifyLoop d (fetchUnnotified t) t

/-- The operations the program ever applies to a ledger table: the
recorder's insert-or-ignore and a notifier run. -/

inductive Op (κ : Type) where
  | insert (k : κ)
  | notify (d : κ → Bool)

def applyOp {κ : Type} [DecidableEq κ] (t : Table κ) : Op κ → Table κ
  | Op.insert k => insertOrIgnore t k
  | Op.notify d => (notifyRun d t).1

def applyOps {κ : Type} [DecidableEq κ] (t : Table κ) (ops : List (Op κ)) : Table κ :=
  ops.foldl applyOp t

/-- The UNIQUE natural-key constraint of the schema, as a table invariant. -/

def uniqueKeys {κ : Type} (t : Table κ) : Prop :=
  (t.map Row.key).Nodup

/-- Number of rows carrying a given natural key. -/

def countKey {κ : Type} [DecidableEq κ] (t : Table κ) (k : κ) : Nat :=
  t.countP fun r => decide (r.key = k)

/-- A row with `notified = 1` exists for the key. -/

def rowNotified {κ : Type} (t : Table κ) (k : κ) : Prop :=
  ∃ r ∈ t, r.key = k ∧ r.notified = true

instance {κ : Type} [DecidableEq κ] (t : Table κ) : Decidable (uniqueKeys t) := by
  unfold uniqueKeys; infer_instance

instance {κ : Type} [DecidableEq κ] (t : Table κ) (k : κ) : Decidable (rowNotified t k) := by
  unfold rowNotified; infer_instance

/-- Natural key of the `solana_clusters` table: (cluster, version). -/
abbrev SKey : Type := String × String

/-- Natural key of the `github_versions` table: (name, version). -/
abbrev GKey : Type := String × String

/-- Natural key of the `programs` table: (name, cluster, last_slot). -/
abbrev PKey : Type := String × String × Nat

/-- Folding the recorder's insert over a list of natural keys (the common
shape of the three `save_*` functions). -/
def saveKeys {κ : Type} [DecidableEq κ] (t : Table κ) (ks : List κ) : Table κ :=
  ks.foldl insertOrIgnore t

/-- `save_github_versions`: one `INSERT OR IGNORE` per fetched tag name. -/
def save_github_versions (name : String) (versions : List String) (t : Table GKey) :
    Table GKey :=
  versions.foldl (fun t v => insertOrIgnore t (name, v)) t

/-- `save_solana_cluster_versions`: `for version in versions:` iterates the
keys of the version-count dict, one `INSERT OR IGNORE` each. -/
def save_solana_cluster_versions (cluster : String) (versions : List (String × Nat))
    (t : Table SKey) : Table SKey :=
  (versions.map Prod.fst).foldl (fun t v => insertOrIgnore t (cluster, v)) t

/-- `save_program_version`: a single `INSERT OR IGNORE` into `programs`. -/
def save_program_version (name : String) (version : Nat) (cluster : String)
    (t : Table PKey) : Table PKey :=
  insertOrIgnore t (name, cluster, version)

/-- Python truthiness of the optional `last_slot` value tested by
`if version:` in `check_chain_programs`. -/
def pyTruthy (v : Option Nat) : Bool :=
  match v with
  | none => false
  | some n => decide (n ≠ 0)

/-- What `get_program_last_update` reads from the chain for one
(program, cluster) pair: the primary account's parsed
`info.programData` field (absent or a secondary-account address, the
empty string standing for any other falsy value), and the parsed
`info.slot` of each secondary account. -/
structure ProgramAccounts where
  programData : Option String
  slotOf : String → Option Nat

/-- `get_program_last_update`: resolve `info.programData`; if falsy, log
and return `None`; otherwise read the secondary account's `info.slot`. -/
def get_program_last_update (acc : ProgramAccounts) : Option Nat :=
  match acc.programData with
  | none => none
  | some a => if a = "" then none else acc.slotOf a

/-- The loop body of `check_chain_programs` for one (program, cluster)
pair: `version = get_program_last_update(...); if version:
save_program_version(...)`. -/
def check_program_pair (acc : ProgramAccounts) (p c : String) (t : Table PKey) :
    Table PKey :=
  let version := get_program_last_update acc
  if pyTruthy version then save_program_version p (version.getD 0) c t else t

/-- `check_chain_programs`: the nested loops over clusters and programs. -/
def check_chain_programs (oracle : String → String → ProgramAccounts)
    (clusters programs : List String) (t : Table PKey) : Table PKey :=
  clusters.foldl
    (fun t c => programs.foldl (fun t p => check_program_pair (oracle c p) p c t) t) t

/-- The dict update of `get_solana_cluster_versions` for one reported
version string: `if v not in versions: versions[v] = 0` then
`versions[v] += 1`.  A Python dict keeps the position of an existing key
and appends a new one, which the association list mirrors. -/
def bump (versions : List (String × Nat)) (s : String) : List (String × Nat) :=
  if ∃ p ∈ versions, p.1 = s then
    versions.map fun p => if p.1 = s then (p.1, p.2 + 1) else p
  else versions ++ [(s, 1)]

/-- One validator record of `get_cluster_nodes`: counted when its version
is present, skipped (`continue`) when `None`. -/
def clusterStep (versions : List (String × Nat)) (v : Option String) :
    List (String × Nat) :=
  match v with
  | none => versions
  | some s => bump versions s

/-- `get_solana_cluster_versions`: fold the validator list into the
version-count dict (association list in key-insertion order, matching the
Python dict). -/
def get_solana_cluster_versions (nodes : List (Option String)) : List (String × Nat) :=
  nodes.foldl clusterStep []

/-- The cluster names iterated by `check_solana` and
`check_chain_programs`. -/
def SOLANA_CLUSTER_ENDPOINTS : List String := ["devnet", "testnet", "mainnet-beta"]

/-- The tracked repositories iterated by `check_github_versions`. -/
def GITHUB_ADDRESSES : List (String × String) :=
  [("solana", "solana-labs/solana"),
   ("spl", "solana-labs/solana-program-library"),
   ("metaplex", "metaplex-foundation/metaplex-program-library")]

/-- `get_github_versions`: the names of the first 10 tags. -/
def get_github_versions (tags : List String) : List String :=
  tags.take 10

/-- The loop of `check_solana`: for each cluster, query the node list
(`source c`, which raises on an unreachable endpoint — there is no
`try/except` around it) and save; after the loop, run the cluster-version
notifier.  The returned table is the state persisted so far (each save
commits); a `some e` means the exception propagated out of
`check_solana`. -/
def checkSolanaGo (source : String → Except String (List (Option String)))
    (d : SKey → Bool) : List String → Table SKey → Table SKey × Option String
  | [], t => ((notifyRun d t).1, none)
  | c :: rest, t =>
    match source c with
    | Except.error e => (t, some e)
    | Except.ok nodes =>
      checkSolanaGo source d rest
        (save_solana_cluster_versions c (get_solana_cluster_versions nodes) t)

def check_solana (source : String → Except String (List (Option String)))
    (d : SKey → Bool) (t : Table SKey) : Table SKey × Option String :=
  checkSolanaGo source d SOLANA_CLUSTER_ENDPOINTS t

/-- The loop of `check_github_versions`: for each tracked repository,
fetch the tag list (`source rid`, which raises on an API error — again no
`try/except`) and save. -/
def checkGithubGo (source : String → Except String (List String)) :
    List (String × String) → Table GKey → Table GKey × Option String
  | [], t => (t, none)
  | (name, rid) :: rest, t =>
    match source rid with
    | Except.error e => (t, some e)
    | Except.ok tags =>
      checkGithubGo source rest (save_github_versions name (get_github_versions tags) t)

def check_github_versions (source : String → Except String (List String))
    (t : Table GKey) : Table GKey × Option String :=
  checkGithubGo source GITHUB_ADDRESSES t

/-- The store state seen by `init_db`: whether `versions.db` exists on
disk, whether the three tables have been created in it, and whether
reading and executing `schema.sql` would succeed.  `sqlite3.connect`
creates the (empty) database file before the script runs, so a failing
script still leaves the file behind. -/
structure StoreFS where
  dbFileExists : Bool
  tablesCreated : Bool
  schemaScriptOk : Bool
deriving DecidableEq, Repr

/-- `init_db`: `if not pathlib.Path("versions.db").exists():` connect
(creating the file) and run `schema.sql`; otherwise do nothing.  The
`some e` component is an exception propagating out of `init_db`. -/
def init_db (fs : StoreFS) : StoreFS × Option String :=
  if fs.dbFileExists then (fs, none)
  else if fs.schemaScriptOk then
    ({ fs with dbFileExists := true, tablesCreated := true }, none)
  else
    ({ fs with dbFileExists := true }, some "schema creation failed")

/-- A cluster data source whose `devnet` endpoint is unreachable (the RPC
call raises) while `testnet` and `mainnet-beta` respond with one node
reporting version 1.17.0. -/
def srcFail : String → Except String (List (Option String)) :=
  fun c => if c = "devnet" then Except.error "endpoint unreachable"
           else Except.ok [some "1.17.0"]

section BasicLemmas

variable {κ : Type} [DecidableEq κ]

theorem keysMap_markNotified (t : Table κ) (k : κ) :
    (markNotified t k).map Row.key = t.map Row.key := by
  unfold markNotified
  rw [List.map_map]
  apply List.map_congr_left
  intro r _
  by_cases h : r.key = k <;> simp [h]

theorem length_markNotified (t : Table κ) (k : κ) :
    (markNotified t k).length = t.length := by
  unfold markNotified; simp

theorem markNotified_fix {r : Row κ} {k : κ} (h : r.key = k → r.notified = true) :
    (if r.key = k then (⟨r.key, true⟩ : Row κ) else r) = r := by
  by_cases hk : r.key = k
  · rw [if_pos hk]
    cases r with
    | mk key n =>
      dsimp only at h ⊢
      rw [h hk]
  · rw [if_neg hk]

theorem mem_markNotified_of_notified {t : Table κ} {r : Row κ} (k : κ)
    (hr : r ∈ t) (hn : r.notified = true) : r ∈ markNotified t k := by
  unfold markNotified
  rw [show r = (if r.key = k then (⟨r.key, true⟩ : Row κ) else r) from
    (markNotified_fix (fun _ => hn)).symm]
  exact List.mem_map_of_mem _ hr

theorem mem_markNotified_of_ne {t : Table κ} {r : Row κ} {k : κ}
    (hr : r ∈ t) (hne : r.key ≠ k) : r ∈ markNotified t k := by
  unfold markNotified
  have : (fun r : Row κ => if r.key = k then (⟨r.key, true⟩ : Row κ) else r) r = r := by
    simp [hne]
  rw [show r = (fun r : Row κ => if r.key = k then (⟨r.key, true⟩ : Row κ) else r) r from this.symm]
  exact List.mem_map_of_mem _ hr

theorem uniqueKeys_markNotified {t : Table κ} (k : κ) (h : uniqueKeys t) :
    uniqueKeys (markNotified t k) := by
  unfold uniqueKeys
  rw [keysMap_markNotified]
  exact h

theorem uniqueKeys_insertOrIgnore {t : Table κ} (k : κ) (h : uniqueKeys t) :
    uniqueKeys (insertOrIgnore t k) := by
  unfold insertOrIgnore
  split
  · exact h
  · next hne =>
    unfold uniqueKeys at h ⊢
    rw [List.map_append]
    simp only [List.map_cons, List.map_nil]
    rw [List.nodup_append]
    refine ⟨h, List.nodup_singleton _, ?_⟩
    intro a ha hb
    simp only [List.mem_singleton] at hb
    subst hb
    rcases List.mem_map.mp ha with ⟨r, hr, hrk⟩
    exact hne ⟨r, hr, hrk⟩

theorem rowNotified_insertOrIgnore {t : Table κ} {k k2 : κ}
    (h : rowNotified t k) : rowNotified (insertOrIgnore t k2) k := by
  rcases h with ⟨r, hr, hk, hn⟩
  unfold insertOrIgnore
  split
  · exact ⟨r, hr, hk, hn⟩
  · exact ⟨r, List.mem_append_left _ hr, hk, hn⟩

theorem rowNotified_markNotified {t : Table κ} {k : κ} (k2 : κ)
    (h : rowNotified t k) : rowNotified (markNotified t k2) k := by
  rcases h with ⟨r, hr, hk, hn⟩
  exact ⟨r, mem_markNotified_of_notified k2 hr hn, hk, hn⟩

theorem rowNotified_notifyLoop {k : κ} (d : κ → Bool) (ks : List κ) (t : Table κ)
    (h : rowNotified t k) : rowNotified (notifyLoop d ks t).1 k := by
  induction ks generalizing t with
  | nil => exact h
  | cons k2 ks ih =>
    unfold notifyLoop
    simp only
    apply ih
    split
    · exact rowNotified_markNotified k2 h
    · exact h

theorem uniqueKeys_notifyLoop (d : κ → Bool) (ks : List κ) (t : Table κ)
    (h : uniqueKeys t) : uniqueKeys (notifyLoop d ks t).1 := by
  induction ks generalizing t with
  | nil => exact h
  | cons k2 ks ih =>
    unfold notifyLoop
    simp only
    apply ih
    split
    · exact uniqueKeys_markNotified k2 h
    · exact h

theorem uniqueKeys_applyOp {t : Table κ} (op : Op κ) (h : uniqueKeys t) :
    uniqueKeys (applyOp t op) := by
  cases op with
  | insert k => exact uniqueKeys_insertOrIgnore k h
  | notify d => exact uniqueKeys_notifyLoop d _ t h

theorem rowNotified_applyOp {t : Table κ} {k : κ} (op : Op κ)
    (h : rowNotified t k) : rowNotified (applyOp t op) k := by
  cases op with
  | insert k2 => exact rowNotified_insertOrIgnore h
  | notify d => exact rowNotified_notifyLoop d _ t h

omit [DecidableEq κ] in

theorem mem_fetchUnnotified {t : Table κ} {k : κ} :
    k ∈ fetchUnnotified t ↔ ∃ r ∈ t, r.key = k ∧ r.notified = false := by
  unfold fetchUnnotified
  constructor
  · intro h
    rcases List.mem_map.mp h with ⟨r, hr, hk⟩
    rcases List.mem_filter.mp hr with ⟨hrt, hnb⟩
    refine ⟨r, hrt, hk, ?_⟩
    cases hb : r.notified
    · rfl
    · rw [hb] at hnb; simp at hnb
  · rintro ⟨r, hr, hk, hn⟩
    apply List.mem_map.mpr
    refine ⟨r, List.mem_filter.mpr ⟨hr, ?_⟩, hk⟩
    rw [hn]; rfl

omit [DecidableEq κ] in

theorem not_mem_fetchUnnotified_of_rowNotified {t : Table κ} {k : κ}
    (hu : uniqueKeys t) (hn : rowNotified t k) : k ∉ fetchUnnotified t := by
  intro hmem
  rcases mem_fetchUnnotified.mp hmem with ⟨r0, hr0, hk0, hn0⟩
  rcases hn with ⟨r1, hr1, hk1, hn1⟩
  have : r0 = r1 :=
    List.inj_on_of_nodup_map hu hr0 hr1 (by rw [hk0, hk1])
  rw [this, hn1] at hn0
  exact Bool.noConfusion hn0

end BasicLemmas

section RunLemmas

variable {κ : Type} [DecidableEq κ]

theorem rowNotified_applyOps {t : Table κ} {k : κ} (ops : List (Op κ))
    (h : rowNotified t k) : rowNotified (applyOps t ops) k := by
  induction ops generalizing t with
  | nil => exact h
  | cons op ops ih => exact ih (rowNotified_applyOp op h)

theorem uniqueKeys_applyOps {t : Table κ} (ops : List (Op κ))
    (h : uniqueKeys t) : uniqueKeys (applyOps t ops) := by
  induction ops generalizing t with
  | nil => exact h
  | cons op ops ih => exact ih (uniqueKeys_applyOp op h)

theorem rowNotified_markNotified_self {t : Table κ} {k : κ}
    (hk : ∃ r ∈ t, r.key = k) : rowNotified (markNotified t k) k := by
  rcases hk with ⟨r, hr, hrk⟩
  have hmem : (⟨r.key, true⟩ : Row κ) ∈ markNotified t k := by
    unfold markNotified
    have h2 := List.mem_map_of_mem
      (fun r : Row κ => if r.key = k then (⟨r.key, true⟩ : Row κ) else r) hr
    have he : (fun r : Row κ => if r.key = k then (⟨r.key, true⟩ : Row κ) else r) r
        = (⟨r.key, true⟩ : Row κ) := by
      simp [hrk]
    rw [he] at h2
    exact h2
  exact ⟨⟨r.key, true⟩, hmem, hrk, rfl⟩

theorem notifyLoop_trace (d : κ → Bool) (ks : List κ) (t : Table κ) :
    (notifyLoop d ks t).2 = ks.map fun k => (k, d k) := by
  induction ks generalizing t with
  | nil => rfl
  | cons k2 ks ih =>
    unfold notifyLoop
    simp only [List.map_cons]
    rw [ih]

theorem notifyLoop_keeps_unnotified {k : κ} (d : κ → Bool) (ks : List κ) (t : Table κ)
    (hd : d k = false) (h : ∃ r ∈ t, r.key = k ∧ r.notified = false) :
    ∃ r ∈ (notifyLoop d ks t).1, r.key = k ∧ r.notified = false := by
  induction ks generalizing t with
  | nil => exact h
  | cons k2 ks ih =>
    unfold notifyLoop
    simp only
    apply ih
    split
    · next h2 =>
      rcases h with ⟨r, hr, hk, hn⟩
      refine ⟨r, mem_markNotified_of_ne hr ?_, hk, hn⟩
      intro e
      have hkk : k = k2 := by rw [← hk, e]
      rw [hkk, h2] at hd
      exact Bool.noConfusion hd
    · exact h

end RunLemmas

/-- Claim C1 (notify-once): once the notifier's `UPDATE ... SET notified=1`
(`markNotified`) has run for a row — which happens only after a dispatch
that raised no error — the row stays notified and is never returned by any
later `SELECT ... WHERE notified = 0` scan (`fetchUnnotified`), across any
number of later recorder inserts and notifier runs.  The UNIQUE key
hypothesis comes from the schema (spec-modelled). -/

theorem notify_once {κ : Type} [DecidableEq κ] (t : Table κ) (k : κ) (ops : List (Op κ))
    (hu : uniqueKeys t) (hk : ∃ r ∈ t, r.key = k) :
    rowNotified (applyOps (markNotified t k) ops) k ∧
    k ∉ fetchUnnotified (applyOps (markNotified t k) ops) := by
  have h1 : rowNotified (applyOps (markNotified t k) ops) k :=
    rowNotified_applyOps ops (rowNotified_markNotified_self hk)
  have h2 : uniqueKeys (applyOps (markNotified t k) ops) :=
    uniqueKeys_applyOps ops (uniqueKeys_markNotified k hu)
  exact ⟨h1, not_mem_fetchUnnotified_of_rowNotified h2 h1⟩

/-- Concrete instance of `notify_once`. -/

theorem notify_once_witness :
    rowNotified (applyOps (markNotified
        ([⟨1, false⟩, ⟨2, false⟩] : Table Nat) 1)
        [Op.insert 1, Op.notify (fun _ => true), Op.insert 3]) 1 ∧
    1 ∉ fetchUnnotified (applyOps (markNotified
        ([⟨1, false⟩, ⟨2, false⟩] : Table Nat) 1)
        [Op.insert 1, Op.notify (fun _ => true), Op.insert 3]) :=
  notify_once [⟨1, false⟩, ⟨2, false⟩] 1
    [Op.insert 1, Op.notify (fun _ => true), Op.insert 3]
    (by decide) (by decide)

/-- Claim C5 (fetch contents and order): `fetchUnnotified` returns exactly
the keys of rows with `notified = 0`, preserving the table's rowid
(insertion) order, and a key inserted later is listed after any un-notified
key already present. -/

theorem fetchUnnotified_order {κ : Type} [DecidableEq κ] (t : Table κ) :
    (∀ k, k ∈ fetchUnnotified t ↔ ∃ r ∈ t, r.key = k ∧ r.notified = false) ∧
    (∀ r1 r2 : Row κ, List.Sublist [r1, r2] t → r1.notified = false → r2.notified = false →
      List.Sublist [r1.key, r2.key] (fetchUnnotified t)) ∧
    (∀ k1 k2 : κ, k1 ∈ fetchUnnotified t → (¬ ∃ r ∈ t, r.key = k2) →
      List.Sublist [k1, k2] (fetchUnnotified (insertOrIgnore t k2))) := by
  refine ⟨fun k => mem_fetchUnnotified, ?_, ?_⟩
  · intro r1 r2 h12 hn1 hn2
    have hf : List.Sublist ([r1, r2].filter (fun r => !r.notified))
        (t.filter (fun r => !r.notified)) :=
      List.Sublist.filter _ h12
    rw [show [r1, r2].filter (fun r => !r.notified) = [r1, r2] by
      simp [List.filter, hn1, hn2]] at hf
    have hm := hf.map Row.key
    exact hm
  · intro k1 k2 hk1 hk2
    unfold insertOrIgnore
    rw [if_neg hk2]
    unfold fetchUnnotified
    rw [List.filter_append, List.map_append]
    have h1 : List.Sublist [k1] (fetchUnnotified t) := List.singleton_sublist.mpr hk1
    have h2 : ([⟨k2, false⟩] : Table κ).filter (fun r => !r.notified) = [⟨k2, false⟩] := by
      simp [List.filter]
    rw [h2]
    exact List.Sublist.append h1 (List.Sublist.refl _)

/-- Concrete instance of `fetchUnnotified_order` (third conjunct). -/

theorem fetchUnnotified_order_witness :
    List.Sublist [1, 5] (fetchUnnotified (insertOrIgnore
      ([⟨1, false⟩, ⟨2, true⟩, ⟨3, false⟩] : Table Nat) 5)) :=
  (fetchUnnotified_order [⟨1, false⟩, ⟨2, true⟩, ⟨3, false⟩]).2.2 1 5
    (by decide) (by decide)

/-- Claim C3 (dispatch failure is isolated and retried): if the dispatch for
an un-notified row raises (`d k = false`), the notifier still records an
attempt for it, still attempts every other fetched row of the same run, the
row is still un-notified after the run, and the next run attempts it
again. -/

theorem dispatch_failure_retry {κ : Type} [DecidableEq κ] (t : Table κ) (k : κ)
    (d d2 : κ → Bool) (hk : k ∈ fetchUnnotified t) (hd : d k = false) :
    ((k, false) ∈ (notifyRun d t).2) ∧
    (∀ k2 ∈ fetchUnnotified t, (k2, d k2) ∈ (notifyRun d t).2) ∧
    (k ∈ fetchUnnotified (notifyRun d t).1) ∧
    ((k, d2 k) ∈ (notifyRun d2 (notifyRun d t).1).2) := by
  have htr : (notifyRun d t).2 = (fetchUnnotified t).map fun k => (k, d k) :=
    notifyLoop_trace d (fetchUnnotified t) t
  have hstill : k ∈ fetchUnnotified (notifyRun d t).1 :=
    mem_fetchUnnotified.mpr
      (notifyLoop_keeps_unnotified d (fetchUnnotified t) t hd
        (mem_fetchUnnotified.mp hk))
  refine ⟨?_, ?_, hstill, ?_⟩
  · rw [htr, ← hd]
    exact List.mem_map_of_mem _ hk
  · intro k2 hk2
    rw [htr]
    exact List.mem_map_of_mem _ hk2
  · have htr2 : (notifyRun d2 (notifyRun d t).1).2
        = (fetchUnnotified (notifyRun d t).1).map fun k => (k, d2 k) :=
      notifyLoop_trace d2 _ _
    rw [htr2]
    exact List.mem_map_of_mem _ hstill

section SaveLemmas

variable {κ : Type} [DecidableEq κ]

theorem insertOrIgnore_of_mem {t : Table κ} {k : κ}
    (h : ∃ r ∈ t, r.key = k) : insertOrIgnore t k = t := by
  unfold insertOrIgnore
  rw [if_pos h]

theorem mem_key_insertOrIgnore_self (t : Table κ) (k : κ) :
    ∃ r ∈ insertOrIgnore t k, r.key = k := by
  unfold insertOrIgnore
  split
  · next h => exact h
  · exact ⟨⟨k, false⟩, List.mem_append_right _ (List.mem_singleton_self _), rfl⟩

theorem mem_key_insertOrIgnore_mono {t : Table κ} {k0 : κ} (k : κ)
    (h : ∃ r ∈ t, r.key = k0) : ∃ r ∈ insertOrIgnore t k, r.key = k0 := by
  unfold insertOrIgnore
  split
  · exact h
  · rcases h with ⟨r, hr, hk⟩
    exact ⟨r, List.mem_append_left _ hr, hk⟩

theorem mem_key_saveKeys_mono {t : Table κ} {k0 : κ} (ks : List κ)
    (h : ∃ r ∈ t, r.key = k0) : ∃ r ∈ saveKeys t ks, r.key = k0 := by
  induction ks generalizing t with
  | nil => exact h
  | cons k ks ih => exact ih (mem_key_insertOrIgnore_mono k h)

theorem mem_key_saveKeys_of_mem {t : Table κ} {k : κ} {ks : List κ}
    (h : k ∈ ks) : ∃ r ∈ saveKeys t ks, r.key = k := by
  induction ks generalizing t with
  | nil => exact absurd h (List.not_mem_nil k)
  | cons k2 ks ih =>
    rcases List.mem_cons.mp h with h1 | h2
    · subst h1
      exact mem_key_saveKeys_mono ks (mem_key_insertOrIgnore_self t k)
    · exact ih h2

theorem saveKeys_of_all_mem {t : Table κ} {ks : List κ}
    (h : ∀ k ∈ ks, ∃ r ∈ t, r.key = k) : saveKeys t ks = t := by
  induction ks with
  | nil => rfl
  | cons k2 ks ih =>
    unfold saveKeys
    rw [List.foldl_cons, insertOrIgnore_of_mem (h k2 (List.mem_cons_self k2 ks))]
    exact ih fun k hk => h k (List.mem_cons_of_mem k2 hk)

theorem saveKeys_idem (t : Table κ) (ks : List κ) :
    saveKeys (saveKeys t ks) ks = saveKeys t ks :=
  saveKeys_of_all_mem fun _ hk => mem_key_saveKeys_of_mem hk

theorem uniqueKeys_saveKeys {t : Table κ} (ks : List κ)
    (h : uniqueKeys t) : uniqueKeys (saveKeys t ks) := by
  induction ks generalizing t with
  | nil => exact h
  | cons k ks ih => exact ih (uniqueKeys_insertOrIgnore k h)

theorem countKey_eq_one_of_mem {t : Table κ} {k : κ}
    (hu : uniqueKeys t) (h : ∃ r ∈ t, r.key = k) : countKey t k = 1 := by
  induction t with
  | nil => rcases h with ⟨r, hr, _⟩; exact absurd hr (List.not_mem_nil r)
  | cons r0 rest ih =>
    have hu' : (r0.key :: rest.map Row.key).Nodup := by
      unfold uniqueKeys at hu
      rw [List.map_cons] at hu
      exact hu
    have hnotin : r0.key ∉ rest.map Row.key := (List.nodup_cons.mp hu').1
    have hu2 : uniqueKeys rest := (List.nodup_cons.mp hu').2
    unfold countKey
    rw [List.countP_cons]
    by_cases hk0 : r0.key = k
    · have hzero : rest.countP (fun r => decide (r.key = k)) = 0 := by
        rw [List.countP_eq_zero]
        intro r hr hrk
        have hkk : r.key = k := of_decide_eq_true hrk
        apply hnotin
        rw [hk0, ← hkk]
        exact List.mem_map_of_mem Row.key hr
      rw [hzero]
      simp [hk0]
    · have hmem : ∃ r ∈ rest, r.key = k := by
        rcases h with ⟨r, hr, hrk⟩
        rcases List.mem_cons.mp hr with h1 | h2
        · exact absurd (h1 ▸ hrk) hk0
        · exact ⟨r, h2, hrk⟩
      have ht := ih hu2 hmem
      unfold countKey at ht
      rw [ht]
      simp [hk0]

theorem save_github_eq_saveKeys (name : String) (versions : List String) (t : Table GKey) :
    save_github_versions name versions t = saveKeys t (versions.map fun v => (name, v)) := by
  unfold save_github_versions saveKeys
  rw [List.foldl_map]

theorem save_solana_eq_saveKeys (cluster : String) (versions : List (String × Nat))
    (t : Table SKey) :
    save_solana_cluster_versions cluster versions t
      = saveKeys t ((versions.map Prod.fst).map fun v => (cluster, v)) := by
  unfold save_solana_cluster_versions saveKeys
  simp only [List.foldl_map]

end SaveLemmas

/-- Claim C2 (idempotent insert): re-recording a natural key that already
has a row is a complete no-op — the table (hence the existing row's
`notified` flag) is unchanged, exactly one row for the key remains, and the
operation is total (the `OR IGNORE` swallows the duplicate instead of
raising).  The UNIQUE key constraint is spec-modelled from the absent
`schema.sql`. -/

theorem idempotent_insert (name cluster : String) (versions : List String)
    (cversions : List (String × Nat)) (t : Table GKey) (ts : Table SKey)
    (hu : uniqueKeys t) (hus : uniqueKeys ts) :
    (∀ k : GKey, (∃ r ∈ t, r.key = k) → insertOrIgnore t k = t) ∧
    (save_github_versions name versions (save_github_versions name versions t)
      = save_github_versions name versions t) ∧
    (∀ v ∈ versions, countKey (save_github_versions name versions t) (name, v) = 1) ∧
    (save_solana_cluster_versions cluster cversions
        (save_solana_cluster_versions cluster cversions ts)
      = save_solana_cluster_versions cluster cversions ts) ∧
    (∀ p ∈ cversions, countKey
      (save_solana_cluster_versions cluster cversions ts) (cluster, p.1) = 1) := by
  refine ⟨fun k h => insertOrIgnore_of_mem h, ?_, ?_, ?_, ?_⟩
  · rw [save_github_eq_saveKeys, save_github_eq_saveKeys, saveKeys_idem]
  · intro v hv
    rw [save_github_eq_saveKeys]
    refine countKey_eq_one_of_mem (uniqueKeys_saveKeys _ hu) ?_
    exact mem_key_saveKeys_of_mem (List.mem_map_of_mem _ hv)
  · rw [save_solana_eq_saveKeys, save_solana_eq_saveKeys, saveKeys_idem]
  · intro p hp
    rw [save_solana_eq_saveKeys]
    refine countKey_eq_one_of_mem (uniqueKeys_saveKeys _ hus) ?_
    exact mem_key_saveKeys_of_mem
      (List.mem_map_of_mem _ (List.mem_map_of_mem Prod.fst hp))

/-- Concrete instance of `idempotent_insert`. -/

theorem idempotent_insert_witness :
    (∀ k : GKey, (∃ r ∈ ([] : Table GKey), r.key = k) → insertOrIgnore ([] : Table GKey) k = []) ∧
    (save_github_versions "solana" ["v1"] (save_github_versions "solana" ["v1"] [])
      = save_github_versions "solana" ["v1"] []) ∧
    (∀ v ∈ ["v1"], countKey (save_github_versions "solana" ["v1"] []) ("solana", v) = 1) ∧
    (save_solana_cluster_versions "devnet" [("1.17.0", 5)]
        (save_solana_cluster_versions "devnet" [("1.17.0", 5)]
          ([⟨("devnet", "1.16.0"), true⟩] : Table SKey))
      = save_solana_cluster_versions "devnet" [("1.17.0", 5)]
          ([⟨("devnet", "1.16.0"), true⟩] : Table SKey)) ∧
    (∀ p ∈ [("1.17.0", 5)], countKey
      (save_solana_cluster_versions "devnet" [("1.17.0", 5)]
        ([⟨("devnet", "1.16.0"), true⟩] : Table SKey)) ("devnet", p.1) = 1) :=
  idempotent_insert "solana" "devnet" ["v1"] [("1.17.0", 5)]
    [] [⟨("devnet", "1.16.0"), true⟩] (by decide) (by decide)

/-- Concrete instance of `dispatch_failure_retry`. -/

theorem dispatch_failure_retry_witness :
    ((1, false) ∈ (notifyRun (fun k => decide (k ≠ 1))
        ([⟨1, false⟩, ⟨2, false⟩] : Table Nat)).2) ∧
    (∀ k2 ∈ fetchUnnotified ([⟨1, false⟩, ⟨2, false⟩] : Table Nat),
      (k2, decide (k2 ≠ 1)) ∈ (notifyRun (fun k => decide (k ≠ 1))
        ([⟨1, false⟩, ⟨2, false⟩] : Table Nat)).2) ∧
    (1 ∈ fetchUnnotified (notifyRun (fun k => decide (k ≠ 1))
        ([⟨1, false⟩, ⟨2, false⟩] : Table Nat)).1) ∧
    ((1, true) ∈ (notifyRun (fun _ => true) (notifyRun (fun k => decide (k ≠ 1))
        ([⟨1, false⟩, ⟨2, false⟩] : Table Nat)).1).2) :=
  dispatch_failure_retry [⟨1, false⟩, ⟨2, false⟩] 1
    (fun k => decide (k ≠ 1)) (fun _ => true) (by decide) (by decide)

section FrameLemmas

variable {κ : Type} [DecidableEq κ]

theorem getElem?_markNotified (t : Table κ) (k : κ) (i : Nat) :
    (markNotified t k)[i]? =
      (t[i]?).map fun r => if r.key = k then (⟨r.key, true⟩ : Row κ) else r := by
  unfold markNotified
  rw [List.getElem?_map]

theorem getElem?_insertOrIgnore {t : Table κ} {i : Nat} {r : Row κ} (k : κ)
    (h : t[i]? = some r) : (insertOrIgnore t k)[i]? = some r := by
  unfold insertOrIgnore
  split
  · exact h
  · have hlt : i < t.length := by
      rcases List.getElem?_eq_some_iff.mp h with ⟨hl, _⟩
      exact hl
    rw [List.getElem?_append_left hlt]
    exact h

theorem keysMap_notifyLoop (d : κ → Bool) (ks : List κ) (t : Table κ) :
    (notifyLoop d ks t).1.map Row.key = t.map Row.key := by
  induction ks generalizing t with
  | nil => rfl
  | cons k2 ks ih =>
    unfold notifyLoop
    simp only
    rw [ih]
    split
    · exact keysMap_markNotified t k2
    · rfl

theorem getElem?_notifyLoop (d : κ → Bool) (ks : List κ) (t : Table κ) (i : Nat)
    (r : Row κ) (h : t[i]? = some r) :
    ∃ r2, ((notifyLoop d ks t).1)[i]? = some r2 ∧ r2.key = r.key ∧
      (r.notified = true → r2.notified = true) := by
  induction ks generalizing t r with
  | nil => exact ⟨r, h, rfl, fun hn => hn⟩
  | cons k2 ks ih =>
    unfold notifyLoop
    simp only
    by_cases hd : d k2
    · rw [if_pos hd]
      have hm : (markNotified t k2)[i]?
          = some (if r.key = k2 then (⟨r.key, true⟩ : Row κ) else r) := by
        rw [getElem?_markNotified, h]
        rfl
      rcases ih _ _ hm with ⟨r2, hr2, hk2, hn2⟩
      refine ⟨r2, hr2, ?_, ?_⟩
      · rw [hk2]
        by_cases hrk : r.key = k2 <;> simp [hrk]
      · intro hn
        apply hn2
        by_cases hrk : r.key = k2 <;> simp [hrk, hn]
    · rw [if_neg hd]
      exact ih _ _ h

theorem getElem?_applyOp (op : Op κ) (t : Table κ) (i : Nat) (r : Row κ)
    (h : t[i]? = some r) :
    ∃ r2, (applyOp t op)[i]? = some r2 ∧ r2.key = r.key ∧
      (r.notified = true → r2.notified = true) := by
  cases op with
  | insert k => exact ⟨r, getElem?_insertOrIgnore k h, rfl, fun hn => hn⟩
  | notify d => exact getElem?_notifyLoop d _ t i r h

theorem keysMap_applyOp (t : Table κ) (op : Op κ) :
    ∃ ext, (applyOp t op).map Row.key = t.map Row.key ++ ext := by
  cases op with
  | insert k =>
    show ∃ ext, (insertOrIgnore t k).map Row.key = t.map Row.key ++ ext
    unfold insertOrIgnore
    split
    · exact ⟨[], by rw [List.append_nil]⟩
    · exact ⟨[k], by rw [List.map_append]; rfl⟩
  | notify d =>
    exact ⟨[], by rw [List.append_nil]; exact keysMap_notifyLoop d _ t⟩

end FrameLemmas

/-- Claim C6 (frame of `markNotified` and of the whole system): the
notifier's `UPDATE ... SET notified=1 WHERE key = ?` keeps the key column
of every row, leaves every row whose key differs untouched, flips exactly
the (unique) row carrying the key, and no operation of the program ever
deletes a row, changes a key column, or reverts `notified` to 0. -/

theorem markNotified_frame {κ : Type} [DecidableEq κ] (t : Table κ) (k : κ) :
    ((markNotified t k).map Row.key = t.map Row.key) ∧
    (∀ (i : Nat) (r : Row κ), t[i]? = some r → r.key ≠ k → (markNotified t k)[i]? = some r) ∧
    (∀ (i : Nat) (r : Row κ), t[i]? = some r → r.key = k →
      (markNotified t k)[i]? = some ⟨k, true⟩) ∧
    (uniqueKeys t → ∀ (i j : Nat) (ri rj : Row κ), t[i]? = some ri → t[j]? = some rj →
      ri.key = k → rj.key = k → i = j) ∧
    (∀ op : Op κ, ∃ ext, (applyOp t op).map Row.key = t.map Row.key ++ ext) ∧
    (∀ (op : Op κ) (i : Nat) (r : Row κ), t[i]? = some r →
      ∃ r2 : Row κ, (applyOp t op)[i]? = some r2 ∧ r2.key = r.key ∧
        (r.notified = true → r2.notified = true)) := by
  refine ⟨keysMap_markNotified t k, ?_, ?_, ?_, keysMap_applyOp t, ?_⟩
  · intro i r h hne
    rw [getElem?_markNotified, h]
    simp [hne]
  · intro i r h hk
    rw [getElem?_markNotified, h]
    simp [hk]
  · intro hu i j ri rj hi hj hik hjk
    have hi' : (t.map Row.key)[i]? = some k := by
      rw [List.getElem?_map, hi]
      simp [hik]
    have hj' : (t.map Row.key)[j]? = some k := by
      rw [List.getElem?_map, hj]
      simp [hjk]
    have hlen : i < (t.map Row.key).length := by
      rcases List.getElem?_eq_some_iff.mp hi' with ⟨hl, _⟩
      exact hl
    exact List.getElem?_inj hlen hu (by rw [hi', hj'])
  · exact fun op i r h => getElem?_applyOp op t i r h

/-- Concrete instance of `markNotified_frame`. -/

theorem markNotified_frame_witness :
    (markNotified ([⟨1, false⟩, ⟨2, false⟩] : Table Nat) 2)[0]? = some ⟨1, false⟩ :=
  (markNotified_frame ([⟨1, false⟩, ⟨2, false⟩] : Table Nat) 2).2.1 0 ⟨1, false⟩
    (by decide) (by decide)

/-- Claim C7 (skipped program): when the primary account's parsed metadata
has no `programData` reference, the pair contributes nothing — no row is
inserted (the pair's step is the identity on the table, and being a total
function it raises nothing), and the run over the remaining pairs of the
cluster is exactly the run without that pair. -/

theorem skipped_program (oracle : String → String → ProgramAccounts)
    (c p : String) (before after : List String) (t : Table PKey)
    (h : (oracle c p).programData = none) :
    check_program_pair (oracle c p) p c t = t ∧
    check_chain_programs oracle [c] (before ++ p :: after) t
      = check_chain_programs oracle [c] (before ++ after) t := by
  have hnone : get_program_last_update (oracle c p) = none := by
    unfold get_program_last_update
    rw [h]
  have hpair : ∀ t2 : Table PKey, check_program_pair (oracle c p) p c t2 = t2 := by
    intro t2
    unfold check_program_pair
    rw [hnone]
    rfl
  refine ⟨hpair t, ?_⟩
  unfold check_chain_programs
  simp only [List.foldl_cons, List.foldl_nil]
  rw [List.foldl_append, List.foldl_append]
  simp only [List.foldl_cons]
  rw [hpair]

/-- Concrete instance of `skipped_program`. -/

theorem skipped_program_witness :
    check_program_pair
      ((fun _ _ => (⟨none, fun _ => none⟩ : ProgramAccounts)) "devnet" "metaplex")
      "metaplex" "devnet" [] = [] ∧
    check_chain_programs (fun _ _ => (⟨none, fun _ => none⟩ : ProgramAccounts))
      ["devnet"] ([] ++ "metaplex" :: []) []
      = check_chain_programs (fun _ _ => (⟨none, fun _ => none⟩ : ProgramAccounts))
          ["devnet"] ([] ++ []) [] :=
  skipped_program (fun _ _ => ⟨none, fun _ => none⟩) "devnet" "metaplex" [] [] []
    rfl

/-- Claim C10 (slot 0 never recorded): the recording step of
`check_chain_programs` runs only when the returned slot value is Python
truthy, and the value is falsy exactly when it is `None` or `0` — so a
pair whose resolved deployment slot is 0 is skipped just like an
undeployed one. -/

theorem slot_zero_not_recorded (acc : ProgramAccounts) (p c : String) (t : Table PKey) :
    (pyTruthy (get_program_last_update acc) = false → check_program_pair acc p c t = t) ∧
    (pyTruthy (get_program_last_update acc) = false ↔
      get_program_last_update acc = none ∨ get_program_last_update acc = some 0) := by
  constructor
  · intro h
    unfold check_program_pair
    simp [h]
  · cases hv : get_program_last_update acc with
    | none => simp [pyTruthy]
    | some n => simp [pyTruthy]

/-- Concrete instance of `slot_zero_not_recorded`: a program whose
executable-data account reports slot 0 is not recorded. -/

theorem slot_zero_not_recorded_witness :
    check_program_pair (⟨some "addr", fun _ => some 0⟩ : ProgramAccounts)
      "metaplex" "devnet" [] = [] :=
  (slot_zero_not_recorded ⟨some "addr", fun _ => some 0⟩ "metaplex" "devnet" []).1
    (by decide)

theorem clusterStep_inv (acc : List (String × Nat)) (processed : List (Option String))
    (v : Option String)
    (h1 : (acc.map Prod.fst).Nodup)
    (h2 : ∀ s : String, s ∈ acc.map Prod.fst ↔ some s ∈ processed)
    (h3 : ∀ (s : String) (n : Nat), (s, n) ∈ acc → n = processed.count (some s)) :
    ((clusterStep acc v).map Prod.fst).Nodup ∧
    (∀ s : String, s ∈ (clusterStep acc v).map Prod.fst ↔ some s ∈ processed ++ [v]) ∧
    (∀ (s : String) (n : Nat), (s, n) ∈ clusterStep acc v →
      n = (processed ++ [v]).count (some s)) := by
  cases v with
  | none =>
    refine ⟨h1, ?_, ?_⟩
    · intro s
      show s ∈ acc.map Prod.fst ↔ some s ∈ processed ++ [none]
      rw [h2, List.mem_append]
      simp
    · intro s n hmem
      show n = (processed ++ [none]).count (some s)
      rw [h3 s n hmem, List.count_append]
      simp
  | some s0 =>
    simp only [clusterStep]
    unfold bump
    by_cases hin : ∃ p ∈ acc, p.1 = s0
    · rw [if_pos hin]
      have hkeys : ((acc.map fun p => if p.1 = s0 then (p.1, p.2 + 1) else p).map Prod.fst)
          = acc.map Prod.fst := by
        rw [List.map_map]
        apply List.map_congr_left
        intro p _
        by_cases hp : p.1 = s0 <;> simp [hp]
      have hs0in : s0 ∈ acc.map Prod.fst := by
        rcases hin with ⟨p, hp, hps⟩
        rw [← hps]
        exact List.mem_map_of_mem Prod.fst hp
      refine ⟨by rw [hkeys]; exact h1, ?_, ?_⟩
      · intro s
        rw [hkeys, List.mem_append, h2]
        constructor
        · intro hs
          exact Or.inl hs
        · intro hs
          rcases hs with hs | hs
          · exact hs
          · simp only [List.mem_singleton, Option.some.injEq] at hs
            subst hs
            exact (h2 s).mp hs0in
      · intro s n hmem
        rcases List.mem_map.mp hmem with ⟨p, hp, hfp⟩
        by_cases hps : p.1 = s0
        · rw [if_pos hps] at hfp
          injection hfp with hfs hfn
          have hpacc : (p.1, p.2) ∈ acc := by
            rw [Prod.mk.eta]
            exact hp
          have hcount := h3 p.1 p.2 hpacc
          rw [← hfs, ← hfn, hcount, List.count_append, hps]
          simp
        · rw [if_neg hps] at hfp
          have hpacc : (s, n) ∈ acc := hfp ▸ hp
          have hsne : s ≠ s0 := by
            intro e
            apply hps
            rw [show p.1 = s from congrArg Prod.fst hfp, e]
          rw [h3 s n hpacc, List.count_append]
          simp [hsne]
    · rw [if_neg hin]
      have hs0notin : s0 ∉ acc.map Prod.fst := by
        intro hmem
        rcases List.mem_map.mp hmem with ⟨p, hp, hps⟩
        exact hin ⟨p, hp, hps⟩
      refine ⟨?_, ?_, ?_⟩
      · rw [List.map_append]
        simp only [List.map_cons, List.map_nil]
        rw [List.nodup_append]
        refine ⟨h1, List.nodup_singleton _, ?_⟩
        intro a ha hb
        simp only [List.mem_singleton] at hb
        subst hb
        exact hs0notin ha
      · intro s
        rw [List.map_append]
        simp only [List.map_cons, List.map_nil]
        rw [List.mem_append, List.mem_append, h2]
        simp
      · intro s n hmem
        rcases List.mem_append.mp hmem with hma | hmb
        · have hsne : s ≠ s0 := by
            intro e
            subst e
            exact hs0notin (List.mem_map_of_mem Prod.fst hma)
          rw [h3 s n hma, List.count_append]
          simp [hsne]
        · simp only [List.mem_singleton, Prod.mk.injEq] at hmb
          obtain ⟨hs, hn⟩ := hmb
          subst hs
          subst hn
          have hnotp : some s ∉ processed := by
            intro hp
            exact hs0notin ((h2 s).mpr hp)
          rw [List.count_append, List.count_eq_zero.mpr hnotp]
          simp

theorem clusterFold_inv (rest : List (Option String)) :
    ∀ (acc : List (String × Nat)) (processed : List (Option String)),
      (acc.map Prod.fst).Nodup →
      (∀ s : String, s ∈ acc.map Prod.fst ↔ some s ∈ processed) →
      (∀ (s : String) (n : Nat), (s, n) ∈ acc → n = processed.count (some s)) →
      ((rest.foldl clusterStep acc).map Prod.fst).Nodup ∧
      (∀ s : String, s ∈ (rest.foldl clusterStep acc).map Prod.fst ↔
        some s ∈ processed ++ rest) ∧
      (∀ (s : String) (n : Nat), (s, n) ∈ rest.foldl clusterStep acc →
        n = (processed ++ rest).count (some s)) := by
  induction rest with
  | nil =>
    intro acc processed h1 h2 h3
    refine ⟨h1, ?_, ?_⟩
    · intro s
      rw [List.append_nil]
      exact h2 s
    · intro s n hm
      rw [List.append_nil]
      exact h3 s n hm
  | cons v rest ih =>
    intro acc processed h1 h2 h3
    rw [List.foldl_cons]
    obtain ⟨g1, g2, g3⟩ := clusterStep_inv acc processed v h1 h2 h3
    obtain ⟨r1, r2, r3⟩ := ih (clusterStep acc v) (processed ++ [v]) g1 g2 g3
    refine ⟨r1, ?_, ?_⟩
    · intro s
      rw [r2, List.append_assoc]
      rfl
    · intro s n hm
      rw [r3 s n hm, List.append_assoc]
      rfl

/-- Claim C8 (cluster version tally): `get_solana_cluster_versions` skips
nodes reporting no version, its dict has one entry per distinct reported
version string, and each entry's count is the number of nodes reporting
that version. -/

theorem cluster_versions_tally (nodes : List (Option String)) :
    ((get_solana_cluster_versions nodes).map Prod.fst).Nodup ∧
    (∀ s : String, s ∈ (get_solana_cluster_versions nodes).map Prod.fst ↔
      some s ∈ nodes) ∧
    (∀ (s : String) (n : Nat), (s, n) ∈ get_solana_cluster_versions nodes →
      n = nodes.count (some s)) ∧
    (∀ l1 l2 : List (Option String),
      get_solana_cluster_versions (l1 ++ none :: l2)
        = get_solana_cluster_versions (l1 ++ l2)) := by
  obtain ⟨h1, h2, h3⟩ := clusterFold_inv nodes [] [] (by simp) (by simp) (by simp)
  refine ⟨h1, ?_, ?_, ?_⟩
  · intro s
    exact h2 s
  · intro s n hm
    exact h3 s n hm
  · intro l1 l2
    unfold get_solana_cluster_versions
    rw [List.foldl_append, List.foldl_append, List.foldl_cons]
    rfl

/-- Concrete instance of `cluster_versions_tally`: two nodes reporting the
same version collapse to one entry counting 2. -/

theorem cluster_versions_tally_witness :
    (2 : Nat) = ([some "1.17.0", none, some "1.17.0"] : List (Option String)).count
      (some "1.17.0") :=
  (cluster_versions_tally [some "1.17.0", none, some "1.17.0"]).2.2.1 "1.17.0" 2
    (by decide)

/-- Counterexample to claim C4: with `devnet` unreachable, `check_solana`
propagates the exception; nothing at all is persisted for the remaining
clusters (`testnet`'s version in particular) and the notifier never runs,
so collection does not complete for the remaining items. -/

theorem collector_failure_not_isolated_cex :
    (check_solana srcFail (fun _ => true) []).2 = some "endpoint unreachable" ∧
    (check_solana srcFail (fun _ => true) []).1 = [] ∧
    ¬ (("testnet", "1.17.0") ∈
        ((check_solana srcFail (fun _ => true) []).1.map Row.key)) := by
  refine ⟨rfl, rfl, ?_⟩
  intro h
  rw [show ((check_solana srcFail (fun _ => true) []).1.map Row.key)
      = ([] : List SKey) from rfl] at h
  exact List.not_mem_nil _ h

/-- Claim C4 as amended: the collector loops have no per-item error
handler, so a data-source error for one item makes the whole collector
return that error at once — the failing and remaining items are not
collected or persisted and (for `check_solana`) the notify step is
skipped; only the items saved before the failure remain.  The notifier
loops alone isolate per-row failures. -/

theorem collector_error_aborts
    (source : String → Except String (List (Option String)))
    (gsource : String → Except String (List String))
    (d : SKey → Bool) (c : String) (rest : List String)
    (name rid : String) (grest : List (String × String))
    (t : Table SKey) (tg : Table GKey) (e e2 : String)
    (h : source c = Except.error e) (h2 : gsource rid = Except.error e2) :
    checkSolanaGo source d (c :: rest) t = (t, some e) ∧
    checkGithubGo gsource ((name, rid) :: grest) tg = (tg, some e2) := by
  constructor
  · unfold checkSolanaGo
    rw [h]
  · unfold checkGithubGo
    rw [h2]

/-- Concrete instance of `collector_error_aborts`. -/

theorem collector_error_aborts_witness :
    checkSolanaGo srcFail (fun _ => true) ["devnet", "testnet"] [] =
      ([], some "endpoint unreachable") ∧
    checkGithubGo (fun _ => Except.error "api down")
      [("solana", "solana-labs/solana")] [] = ([], some "api down") :=
  collector_error_aborts srcFail (fun _ => Except.error "api down")
    (fun _ => true) "devnet" ["testnet"] "solana" "solana-labs/solana" [] [] []
    "endpoint unreachable" "api down" rfl rfl

/-- Counterexample to claim C9: `init_db` tests the existence of the
`versions.db` file, not of the tables.  Starting from no file and a
failing `schema.sql` read, the first run leaves an empty database file
behind; every later run then sees the file, does nothing and raises
nothing — the tables are absent yet never created, and no error aborts
the run. -/

theorem init_db_file_check_cex :
    ((init_db ⟨false, false, false⟩).1.tablesCreated = false) ∧
    ((init_db ⟨false, false, false⟩).1.dbFileExists = true) ∧
    (init_db ((init_db ⟨false, false, false⟩).1)
      = ((init_db ⟨false, false, false⟩).1, none)) ∧
    ((init_db ((init_db ⟨false, false, false⟩).1)).1.tablesCreated = false) := by
  decide

/-- Claim C9 as amended: `init_db` creates the tables only when the
database file is absent; when the file exists it is a complete no-op even
if the tables were never created, so repeated runs are idempotent, and an
error is raised exactly when the file was absent and the schema script
fails. -/

theorem init_db_amended (fs : StoreFS) :
    (fs.dbFileExists = true → init_db fs = (fs, none)) ∧
    (fs.dbFileExists = false → fs.schemaScriptOk = true →
      (init_db fs).1.tablesCreated = true ∧ (init_db fs).2 = none ∧
      init_db (init_db fs).1 = ((init_db fs).1, none)) ∧
    ((init_db fs).2 ≠ none ↔ fs.dbFileExists = false ∧ fs.schemaScriptOk = false) := by
  by_cases h1 : fs.dbFileExists = true
  · refine ⟨fun _ => by unfold init_db; rw [if_pos h1], fun hc => absurd h1 (by rw [hc]; exact Bool.noConfusion), ?_⟩
    unfold init_db
    rw [if_pos h1]
    simp [h1]
  · have h1' : fs.dbFileExists = false := by
      cases hb : fs.dbFileExists
      · rfl
      · exact absurd hb h1
    by_cases h2 : fs.schemaScriptOk = true
    · refine ⟨fun hc => absurd hc h1, fun _ _ => ?_, ?_⟩
      · unfold init_db
        rw [if_neg (by rw [h1']; exact Bool.noConfusion), if_pos h2]
        simp
      · unfold init_db
        rw [if_neg (by rw [h1']; exact Bool.noConfusion), if_pos h2]
        simp [h2]
    · have h2' : fs.schemaScriptOk = false := by
        cases hb : fs.schemaScriptOk
        · rfl
        · exact absurd hb h2
      refine ⟨fun hc => absurd hc h1, fun _ hc => absurd hc h2, ?_⟩
      unfold init_db
      rw [if_neg (by rw [h1']; exact Bool.noConfusion), if_neg (by rw [h2']; exact Bool.noConfusion)]
      simp [h1', h2']

/-- Concrete instance of `init_db_amended`. -/

theorem init_db_amended_witness :
    (init_db ⟨false, false, true⟩).1.tablesCreated = true ∧
    (init_db ⟨false, false, true⟩).2 = none ∧
    init_db (init_db ⟨false, false, true⟩).1
      = ((init_db ⟨false, false, true⟩).1, none) :=
  (init_db_amended ⟨false, false, true⟩).2.1 rfl rfl

end NeonMonitor
